import Mathlib

/-!
Shallow embedding of the concurrent job-dispatch core of `ffpack`
(`src/main.rs`): the shared job queue and its lifecycle flags, the worker
wake-up protocol, the worker's per-job post-processing, the job-admission
loop with output-path disambiguation, byte accounting, and the final
report formatting.  Paths are modelled as strings, file contents as lists
of byte values, and the filesystem as a boolean existence predicate; the
blocking condition-variable protocol is modelled by the decision the
worker takes each time it wakes while holding the queue lock.
-/

namespace FFPack

/-- A filesystem path (the directory prefix is folded into the string). -/
abbrev Path := String

/-- One admitted job: the `(PathBuf, PathBuf)` pair pushed by admission
(`main.rs`, `jobs: VecDeque<(PathBuf, PathBuf)>`). -/
structure Job where
  input : Path
  output : Path
deriving Repr, DecidableEq

/-- `struct State` from `main.rs`: the FIFO job queue plus the two
lifecycle flags, all guarded by one mutex. -/
structure State where
  jobs : List Job
  cancel : Bool
  done : Bool
deriving Repr, DecidableEq

/-- Outcome of one wake-up of a worker holding the queue lock. -/
inductive TakeResult where
  | terminate : TakeResult
  | take : Job → State → TakeResult
  | wait : TakeResult
deriving Repr, DecidableEq

/-- The body of the worker's inner `loop` in `main.rs` (lines 127-143),
evaluated once per wake-up while the lock is held: if
`state.cancel || (state.done && state.jobs.len() == 0)` the worker
returns (thread quits); otherwise, if the queue is non-empty it pops the
front job; otherwise it waits on the condvar. -/
def tryTakeOrWait (s : State) : TakeResult :=
  if s.cancel || (s.done && s.jobs.isEmpty) then
    .terminate
  else
    match s.jobs with
    | [] => .wait
    | j :: rest => .take j { s with jobs := rest }

/-- Result of attempting to run the external `ffmpeg` command for one
job: either the spawn itself failed, or the process ran and produced an
exit status plus captured stdout/stderr bytes. -/
inductive CmdResult where
  | spawnErr : CmdResult
  | output : Bool → List Nat → List Nat → CmdResult
deriving Repr, DecidableEq

/-- The observable side effects of one worker's post-processing of one
job (`main.rs` lines 234-296). -/
structure JobEffects where
  panicked : Bool
  loggedToSink : List Nat
  inputDeleted : Bool
  outputRemoved : Bool
  statsDelta : Nat × Nat
deriving Repr, DecidableEq

/-- Worker post-processing of one job, from `main.rs` lines 234-296.

* A spawn failure hits `command.spawn().unwrap()` (video) or
  `command.output().unwrap()` (image): the `unwrap` panics the worker
  thread before anything is written to the log sink.
* Otherwise the captured stdout and stderr bytes are appended to the log
  file (lines 241-243), unconditionally, before the status is examined.
* On success the input file is removed and `(input_size, output_size)`
  is added to the shared totals (lines 260, 287-288).  The
  `remove_file(work.0).unwrap()` is modelled as succeeding: if it
  panicked the final join and report would never run, so every run that
  reaches the report took the `Ok` path here.
* On failure nothing is deleted unless `video` is set, in which case
  `std::fs::remove_file(work.1).unwrap()` runs (line 294): it removes
  the output when present and panics the worker when the removal fails
  (output absent). -/
def processJob (video : Bool) (outputOnDisk : Bool) (inputSize outputSize : Nat)
    (r : CmdResult) : JobEffects :=
  match r with
  | .spawnErr =>
    { panicked := true, loggedToSink := [], inputDeleted := false,
      outputRemoved := false, statsDelta := (0, 0) }
  | .output success out err =>
    if success then
      { panicked := false, loggedToSink := out ++ err, inputDeleted := true,
        outputRemoved := false, statsDelta := (inputSize, outputSize) }
    else if video then
      if outputOnDisk then
        { panicked := false, loggedToSink := out ++ err, inputDeleted := false,
          outputRemoved := true, statsDelta := (0, 0) }
      else
        { panicked := true, loggedToSink := out ++ err, inputDeleted := false,
          outputRemoved := false, statsDelta := (0, 0) }
    else
      { panicked := false, loggedToSink := out ++ err, inputDeleted := false,
        outputRemoved := false, statsDelta := (0, 0) }

/-- Whether a command result is a successful exit. -/
def isSuccess : CmdResult → Bool
  | .output true _ _ => true
  | _ => false

/-- One executed job as seen by a worker: whether the output path was
present on disk when post-processing ran, the input size captured by
`fs::metadata(work.0)` before the command ran (and hence before the
input could be deleted), the output size captured by
`fs::metadata(work.1)` after a successful run, and the command result. -/
structure JobExec where
  outputOnDisk : Bool
  inputSize : Nat
  outputSize : Nat
  result : CmdResult
deriving Repr, DecidableEq

/-- Rust's `str::eq_ignore_ascii_case`: equality after lowercasing the
ASCII letters (Lean's `Char.toLower` lowercases exactly `A`-`Z`). -/
def eqIgnoreAsciiCase (a b : String) : Bool :=
  a.data.map Char.toLower == b.data.map Char.toLower

/-- The extension filter of the admission loop (`main.rs` lines 314-318):
an entry with no extension is skipped, otherwise its extension must
match one of the accepted extensions ASCII-case-insensitively. -/
def extMatches (exts : List String) (ext : Option String) : Bool :=
  match ext with
  | none => false
  | some x => exts.any (fun e => eqIgnoreAsciiCase e x)

/-- A directory-traversal entry that is a plain file: its stem (the
directory prefix and file stem, what `path.with_extension("")` keeps)
and its extension, `none` when `path.extension()` yields nothing. -/
structure Entry where
  stem : Path
  ext : Option String
deriving Repr, DecidableEq

/-- The full path of an entry. -/
def entryPath (e : Entry) : Path :=
  match e.ext with
  | none => e.stem
  | some x => e.stem ++ "." ++ x

/-- The `counter`-th disambiguated candidate,
`output.with_file_name(format!("{file_name}_{counter}.{use_extension}"))`
in `main.rs` line 331-332, where `file_name` is the stem of the original
candidate. -/
def probeName (stem ext : String) (k : Nat) : Path :=
  stem ++ "_" ++ toString k ++ "." ++ ext

/-- The disambiguation loop of `main.rs` lines 329-340: probe
`probeName stem ext 0`, `probeName stem ext 1`, … with an incrementing
counter until one satisfies `free`, returning the counter value.  The
source loop is unbounded; `fuel` bounds the search here, and `none`
models the loop not having found a free name within `fuel` probes. -/
def findSuffix (free : Path → Bool) (stem ext : String) : Nat → Nat → Option Nat
  | 0, _ => none
  | fuel + 1, k =>
    if free (probeName stem ext k) then some k
    else findSuffix free stem ext fuel (k + 1)

/-- Output-path derivation for one admitted input (`main.rs` lines
325-341): the candidate is the input path with its extension replaced by
`newExt`; if it exists on disk or is already claimed, the numeric-suffix
probes run until a name is free on both counts. -/
def deriveOutput (onDisk : Path → Bool) (claimed : List Path)
    (stem newExt : String) (fuel : Nat) : Option Path :=
  let cand := stem ++ "." ++ newExt
  if onDisk cand || claimed.contains cand then
    (findSuffix (fun p => !onDisk p && !claimed.contains p) stem newExt fuel 0).map
      (probeName stem newExt)
  else
    some cand

/-- The producer-side admission state: the claimed-output set (`outputs:
HashSet` in `main.rs`) and the jobs pushed to the shared queue, in push
order. -/
structure AdmissionState where
  claimed : List Path
  queue : List Job
deriving Repr, DecidableEq

/-- The admission loop of `main.rs` lines 307-353, folded over the
file entries the traversal yields.  For each entry whose extension
matches, the `cancel` flag is read under the queue lock before anything
else; `cancelObs i` is the value that read returns at the `i`-th
eligible entry (the index only advances on eligible entries).  If the
flag is set the loop `break`s and nothing further is ever enqueued.
Otherwise the output path is derived, recorded in the claimed set, and
the job is pushed to the back of the queue; a `none` from
`deriveOutput` models the unbounded probe loop never returning, after
which the run makes no further step. -/
def admissionRun (exts : List String) (newExt : String) (onDisk : Path → Bool)
    (fuel : Nat) (cancelObs : Nat → Bool) :
    List Entry → Nat → AdmissionState → AdmissionState
  | [], _, st => st
  | e :: rest, i, st =>
    if extMatches exts e.ext then
      if cancelObs i then st
      else
        match deriveOutput onDisk st.claimed e.stem newExt fuel with
        | some out =>
          admissionRun exts newExt onDisk fuel cancelObs rest (i + 1)
            { claimed := out :: st.claimed,
              queue := st.queue ++ [{ input := entryPath e, output := out }] }
        | none => st
    else
      admissionRun exts newExt onDisk fuel cancelObs rest i st

/-- The options `OpenOptions::new().write(true).create(true)` used for
the log file in `main.rs` lines 82-86: write and create are set,
truncate is not. -/
structure OpenMode where
  write : Bool
  create : Bool
  truncate : Bool
deriving Repr, DecidableEq

/-- The open mode the log file is opened with. -/
def logOpenMode : OpenMode := { write := true, create := true, truncate := false }

/-- Log-path selection at startup (`main.rs` line 62,
`let output = PathBuf::from(cli.log)`): the user-specified path is used
as-is.  The numeric-suffix disambiguation (lines 64-76) is commented out
in the source, so the filesystem is never consulted. -/
def logSetupPath (_onDisk : Path → Bool) (requested : Path) : Path :=
  requested

/-- The content a file holds immediately after being opened with `m`:
an existing file keeps its content unless truncated; a missing file is
created empty when `create` is set. -/
def openedContent (m : OpenMode) (existing : Option (List Nat)) : Option (List Nat) :=
  match existing with
  | some c => some (if m.truncate then [] else c)
  | none => if m.create then some [] else none

/-- The unit chosen by `format_bytes` (`main.rs` lines 371-382). -/
inductive ByteUnit where
  | B : ByteUnit
  | KiB : ByteUnit
  | MiB : ByteUnit
  | GiB : ByteUnit
deriving Repr, DecidableEq

/-- `const KB` of `format_bytes`. -/
def KB : Nat := 1024

/-- `const MB` of `format_bytes`. -/
def MB : Nat := KB * 1024

/-- `const GB` of `format_bytes`. -/
def GB : Nat := MB * 1024

/-- The unit selection and the decimal precision of the format string
used by `format_bytes` (`main.rs` lines 376-381): `{:.2}` for GiB, MiB
and KiB, and the integer `{}` (no decimals) for plain bytes.  The `f64`
quotient itself is floating-point rendering and is not modelled. -/
def formatBytesUnit (bytes : Nat) : ByteUnit × Nat :=
  if bytes ≥ GB then (.GiB, 2)
  else if bytes ≥ MB then (.MiB, 2)
  else if bytes ≥ KB then (.KiB, 2)
  else (.B, 0)

/-- The u64 modulus. -/
def u64Mod : Nat := 2 ^ 64

/-- Wrapping unsigned 64-bit subtraction: the value `data.0 - data.1`
takes in `main.rs` line 388 when overflow checks are off (release
profile).  Arguments are u64 values, i.e. below `2 ^ 64`. -/
def u64SubWrapping (a b : Nat) : Nat :=
  (a + (u64Mod - b)) % u64Mod

/-- Checked unsigned 64-bit subtraction: `none` is the panic `data.0 -
data.1` raises in `main.rs` line 388 when overflow checks are on (dev
profile). -/
def u64SubChecked (a b : Nat) : Option Nat :=
  if b ≤ a then some (a - b) else none

/-- The byte-savings difference printed by the final report (`main.rs`
line 388): the wrapping reading of `data.0 - data.1`. -/
def reportDiff (totalIn totalOut : Nat) : Nat :=
  u64SubWrapping totalIn totalOut

/-- Wrapping u64 addition: the semantics each `+=` on the `u64` totals
has in the release profile (a checked build panics instead; the two
agree on every addition that stays below `2 ^ 64`). -/
def addU64 (a b : Nat) : Nat :=
  (a + b) % u64Mod

/-- The final `(totalInputBytes, totalOutputBytes)` pair (`Mutex<(0u64, 0u64)>`
in `main.rs`), accumulated over the run's jobs via each job's
`statsDelta` with wrapping u64 addition (lines 287-288, `t.0 +=
input_size; t.1 += output_size`, add on success; no other branch
touches the totals, which `statsDelta = (0, 0)` records). -/
def runTotals (video : Bool) (jobs : List JobExec) : Nat × Nat :=
  jobs.foldl
    (fun t j =>
      (addU64 t.1 (processJob video j.outputOnDisk j.inputSize j.outputSize j.result).statsDelta.1,
       addU64 t.2 (processJob video j.outputOnDisk j.inputSize j.outputSize j.result).statsDelta.2))
    (0, 0)

/-- The stats delta of a job is its sizes on success and zero otherwise. -/
theorem processJob_statsDelta (video outputOnDisk : Bool) (iS oS : Nat)
    (r : CmdResult) :
    (processJob video outputOnDisk iS oS r).statsDelta =
      if isSuccess r then (iS, oS) else (0, 0) := by
  cases r with
  | spawnErr => simp [processJob, isSuccess]
  | output success out err =>
    cases success <;> cases video <;> cases outputOnDisk <;>
      simp [processJob, isSuccess]

/-- A wrapping u64 addition always lands in u64 range. -/
theorem addU64_lt (a b : Nat) : addU64 a b < 2 ^ 64 := by
  simp only [addU64, u64Mod]
  exact Nat.mod_lt _ (by norm_num)

/-- Generalised accumulator form of `runTotals`: from any in-range
totals, the wrapping folds compute the per-success sums modulo
`2 ^ 64`. -/
theorem runTotals_foldl (video : Bool) (jobs : List JobExec) (t : Nat × Nat)
    (ht1 : t.1 < 2 ^ 64) (ht2 : t.2 < 2 ^ 64) :
    jobs.foldl
      (fun t j =>
        (addU64 t.1 (processJob video j.outputOnDisk j.inputSize j.outputSize j.result).statsDelta.1,
         addU64 t.2 (processJob video j.outputOnDisk j.inputSize j.outputSize j.result).statsDelta.2)) t =
    ((t.1 + ((jobs.filter (fun j => isSuccess j.result)).map JobExec.inputSize).sum) % 2 ^ 64,
     (t.2 + ((jobs.filter (fun j => isSuccess j.result)).map JobExec.outputSize).sum) % 2 ^ 64) := by
  induction jobs generalizing t with
  | nil =>
    obtain ⟨t1, t2⟩ := t
    simp only [List.foldl_nil, List.filter_nil, List.map_nil, List.sum_nil, Nat.add_zero]
    rw [Nat.mod_eq_of_lt ht1, Nat.mod_eq_of_lt ht2]
  | cons j rest ih =>
    rw [List.foldl_cons, ih _ (addU64_lt _ _) (addU64_lt _ _)]
    simp only [processJob_statsDelta, List.filter_cons]
    cases h : isSuccess j.result
    · simp [h, addU64, u64Mod, Nat.mod_add_mod, Nat.mod_eq_of_lt ht1, Nat.mod_eq_of_lt ht2]
    · simp [h, addU64, u64Mod, Nat.mod_add_mod, Prod.mk.injEq]
      omega

/-- Unconditionally, the final totals are the per-success sums reduced
modulo `2 ^ 64` — the wrap a release build performs when a `+=`
overflows (a checked build panics there instead). -/
theorem runTotals_wrap (video : Bool) (jobs : List JobExec) :
    runTotals video jobs =
      ((((jobs.filter (fun j => isSuccess j.result)).map JobExec.inputSize).sum) % 2 ^ 64,
       (((jobs.filter (fun j => isSuccess j.result)).map JobExec.outputSize).sum) % 2 ^ 64) := by
  rw [runTotals, runTotals_foldl video jobs (0, 0) (by norm_num) (by norm_num)]
  simp

/-- C1: each time a worker wakes holding the queue lock, the terminal
conditions and the work-availability check are evaluated on the same
state: it terminates exactly when `cancel` is set or admission is done
with an empty queue; it goes back to waiting exactly when no terminal
condition holds and the queue is empty; and when no terminal condition
holds and the queue is non-empty it pops and returns the head job (FIFO
pop), leaving the rest of the queue. -/
theorem tryTakeOrWait_characterisation (s : State) :
    (tryTakeOrWait s = .terminate ↔
      (s.cancel = true ∨ (s.done = true ∧ s.jobs = []))) ∧
    (tryTakeOrWait s = .wait ↔
      (s.cancel = false ∧ s.done = false ∧ s.jobs = [])) ∧
    (∀ j rest, s.jobs = j :: rest → s.cancel = false →
      tryTakeOrWait s = .take j { s with jobs := rest }) := by
  obtain ⟨jobs, cancel, done⟩ := s
  cases cancel <;> cases done <;> cases jobs <;>
    simp [tryTakeOrWait]

/-- C1 witness: a concrete wake-up with one queued job and no terminal
flag pops that job. -/
theorem tryTakeOrWait_characterisation_witness :
    tryTakeOrWait ⟨[⟨"a.png", "a.webp"⟩], false, false⟩ =
      .take ⟨"a.png", "a.webp"⟩ ⟨[], false, false⟩ :=
  (tryTakeOrWait_characterisation ⟨[⟨"a.png", "a.webp"⟩], false, false⟩).2.2
    ⟨"a.png", "a.webp"⟩ [] rfl rfl

/-- C3 counterexample: at a concrete job whose spawn fails, the worker
panics on the `unwrap` with nothing written to the log sink — it does
not log the error and continue its loop as the claim states. -/
theorem processJob_spawnErr_counterexample :
    (processJob false false 4096 0 .spawnErr).panicked = true ∧
    (processJob false false 4096 0 .spawnErr).loggedToSink = [] := by
  constructor <;> rfl

/-- C3 amended: a spawn failure panics the worker thread (the `unwrap`
on `spawn()`/`output()`): nothing is appended to the log sink, the input
file is not deleted, no output cleanup runs, and the worker terminates
instead of continuing to the next job. -/
theorem processJob_spawnErr (video outputOnDisk : Bool) (iS oS : Nat) :
    (processJob video outputOnDisk iS oS .spawnErr).panicked = true ∧
    (processJob video outputOnDisk iS oS .spawnErr).loggedToSink = [] ∧
    (processJob video outputOnDisk iS oS .spawnErr).inputDeleted = false ∧
    (processJob video outputOnDisk iS oS .spawnErr).outputRemoved = false := by
  simp [processJob]

/-- C6: on every run whose true per-success byte sums stay below
`2 ^ 64` — so no `u64` accumulation wraps (release) or panics
(checked) — the final totals are exactly the sums, over the
successfully exited jobs, of the input size captured before deletion
and the output size captured after creation; every other job
contributes a zero stats delta.  `runTotals_wrap` gives the
unconditional wrapping form. -/
theorem runTotals_additivity (video : Bool) (jobs : List JobExec)
    (hIn : ((jobs.filter (fun j => isSuccess j.result)).map JobExec.inputSize).sum < 2 ^ 64)
    (hOut : ((jobs.filter (fun j => isSuccess j.result)).map JobExec.outputSize).sum < 2 ^ 64) :
    runTotals video jobs =
      (((jobs.filter (fun j => isSuccess j.result)).map JobExec.inputSize).sum,
       ((jobs.filter (fun j => isSuccess j.result)).map JobExec.outputSize).sum) ∧
    (∀ j ∈ jobs, isSuccess j.result = false →
      (processJob video j.outputOnDisk j.inputSize j.outputSize j.result).statsDelta
        = (0, 0)) := by
  refine ⟨?_, ?_⟩
  · rw [runTotals_wrap, Nat.mod_eq_of_lt hIn, Nat.mod_eq_of_lt hOut]
  · intro j _ hj
    rw [processJob_statsDelta, hj]
    simp

/-- C6 witness: a concrete run with one successful job (sizes 100/40)
and one failed job (sizes 70/9) stays far below `2 ^ 64` and totals
exactly (100, 40). -/
theorem runTotals_additivity_witness :
    runTotals false
      [⟨true, 100, 40, .output true [] []⟩, ⟨true, 70, 9, .output false [] []⟩] =
      (100, 40) ∧
    isSuccess (CmdResult.output false ([] : List Nat) ([] : List Nat)) = false ∧
    (processJob false true 70 9 (.output false [] [])).statsDelta = (0, 0) := by
  refine ⟨?_, by decide, ?_⟩
  · rw [(runTotals_additivity false
      [⟨true, 100, 40, .output true [] []⟩, ⟨true, 70, 9, .output false [] []⟩]
      (by decide) (by decide)).1]
    decide
  · exact (runTotals_additivity false
      [⟨true, 100, 40, .output true [] []⟩, ⟨true, 70, 9, .output false [] []⟩]
      (by decide) (by decide)).2
      ⟨true, 70, 9, .output false [] []⟩ (by decide) (by decide)

/-- C7 counterexample: at a concrete failed video job whose output file
was never created, the error bytes are logged and the input survives,
but no output is removed and the worker panics — the jobs still queued
for that worker are affected — refuting the claim's conjunct that a
per-job execution failure leaves other jobs unaffected. -/
theorem processJob_failure_counterexample :
    (processJob true false 7 0 (.output false [65] [66])).loggedToSink = [65, 66] ∧
    (processJob true false 7 0 (.output false [65] [66])).inputDeleted = false ∧
    (processJob true false 7 0 (.output false [65] [66])).outputRemoved = false ∧
    (processJob true false 7 0 (.output false [65] [66])).panicked = true := by
  decide

/-- C7 amended: for a job whose command exits unsuccessfully, the
captured stdout and stderr bytes are appended to the log sink (the
write happens before the status branch), the input is not deleted, the
job adds nothing to the totals, and a present partial output is removed
exactly in video mode; but the worker panics — affecting the remaining
jobs of that worker — in video mode when the output file is absent, and
continues unaffected only outside that sub-case. -/
theorem processJob_failure (video outputOnDisk : Bool) (iS oS : Nat)
    (out err : List Nat) :
    (processJob video outputOnDisk iS oS (.output false out err)).loggedToSink
      = out ++ err ∧
    (processJob video outputOnDisk iS oS (.output false out err)).inputDeleted
      = false ∧
    (processJob video outputOnDisk iS oS (.output false out err)).statsDelta
      = (0, 0) ∧
    (processJob video outputOnDisk iS oS (.output false out err)).outputRemoved
      = (video && outputOnDisk) ∧
    (processJob video outputOnDisk iS oS (.output false out err)).panicked
      = (video && !outputOnDisk) := by
  cases video <;> cases outputOnDisk <;> simp [processJob]

/-- C10: a failed video job whose output file was never created reaches
the error branch of `remove_file(work.1)` and the `unwrap` panics the
worker thread instead of letting it continue to the next job. -/
theorem processJob_video_failure_panics (iS oS : Nat) (out err : List Nat) :
    (processJob true false iS oS (.output false out err)).panicked = true ∧
    (processJob true false iS oS (.output false out err)).outputRemoved = false := by
  simp [processJob]

/-- A successful suffix search returns a counter at or after its start
whose probe is free, with every earlier probe from the start non-free. -/
theorem findSuffix_some (free : Path → Bool) (stem ext : String) :
    ∀ fuel start k, findSuffix free stem ext fuel start = some k →
      free (probeName stem ext k) = true ∧ start ≤ k ∧
      ∀ i, start ≤ i → i < k → free (probeName stem ext i) = false := by
  intro fuel
  induction fuel with
  | zero => intro start k h; simp [findSuffix] at h
  | succ n ih =>
    intro start k h
    rw [findSuffix] at h
    by_cases hp : free (probeName stem ext start) = true
    · rw [if_pos hp] at h
      obtain rfl : start = k := by simpa using h
      exact ⟨hp, Nat.le_refl _, fun i h1 h2 => absurd h2 (Nat.not_lt.mpr h1)⟩
    · rw [if_neg hp] at h
      obtain ⟨hf, hle, hmin⟩ := ih (start + 1) k h
      refine ⟨hf, by omega, fun i h1 h2 => ?_⟩
      rcases Nat.eq_or_lt_of_le h1 with heq | h1'
      · subst heq
        exact Bool.eq_false_iff.mpr hp
      · exact hmin i h1' h2

/-- A derived output path is free on disk and not yet claimed. -/
theorem deriveOutput_free (onDisk : Path → Bool) (claimed : List Path)
    (stem newExt : String) (fuel : Nat) (out : Path)
    (h : deriveOutput onDisk claimed stem newExt fuel = some out) :
    onDisk out = false ∧ out ∉ claimed := by
  simp only [deriveOutput] at h
  by_cases hc : (onDisk (stem ++ "." ++ newExt) || claimed.contains (stem ++ "." ++ newExt)) = true
  · rw [if_pos hc] at h
    obtain ⟨k, hk, rfl⟩ := Option.map_eq_some'.mp h
    have hfree := (findSuffix_some _ stem newExt fuel 0 k hk).1
    simp only [Bool.and_eq_true, Bool.not_eq_true'] at hfree
    refine ⟨hfree.1, fun hmem => ?_⟩
    have h2 := hfree.2
    simp at h2
    exact h2 hmem
  · rw [if_neg hc] at h
    obtain rfl : stem ++ "." ++ newExt = out := by simpa using h
    simp only [Bool.or_eq_true, not_or] at hc
    exact ⟨Bool.eq_false_iff.mpr hc.1, fun hmem => hc.2 (by simp [hmem])⟩

/-- The admission loop preserves its uniqueness invariant: queued
outputs are pairwise distinct, each is recorded in the claimed set, and
each was free on disk when chosen. -/
theorem admissionRun_inv (exts : List String) (newExt : String)
    (onDisk : Path → Bool) (fuel : Nat) (cancelObs : Nat → Bool) :
    ∀ (entries : List Entry) (i : Nat) (st : AdmissionState),
      (st.queue.map Job.output).Nodup →
      (∀ j ∈ st.queue, j.output ∈ st.claimed ∧ onDisk j.output = false) →
      (((admissionRun exts newExt onDisk fuel cancelObs entries i st).queue.map
          Job.output).Nodup ∧
       ∀ j ∈ (admissionRun exts newExt onDisk fuel cancelObs entries i st).queue,
         j.output ∈ (admissionRun exts newExt onDisk fuel cancelObs entries i st).claimed ∧
         onDisk j.output = false) := by
  intro entries
  induction entries with
  | nil => intro i st h1 h2; exact ⟨h1, h2⟩
  | cons e rest ih =>
    intro i st h1 h2
    rw [admissionRun]
    by_cases he : extMatches exts e.ext = true
    · rw [if_pos he]
      by_cases hci : cancelObs i = true
      · rw [if_pos hci]; exact ⟨h1, h2⟩
      · rw [if_neg hci]
        cases hd : deriveOutput onDisk st.claimed e.stem newExt fuel with
        | none => exact ⟨h1, h2⟩
        | some out =>
          obtain ⟨hdisk, hclaim⟩ := deriveOutput_free onDisk st.claimed e.stem newExt fuel out hd
          apply ih
          · simp only [List.map_append, List.map_cons, List.map_nil]
            rw [List.nodup_append]
            refine ⟨h1, List.nodup_singleton _, ?_⟩
            intro a ha hb
            simp only [List.mem_singleton] at hb
            subst hb
            obtain ⟨j, hj, rfl⟩ := List.mem_map.mp ha
            exact hclaim (h2 j hj).1
          · intro j hj
            rcases List.mem_append.mp hj with hj' | hj'
            · exact ⟨List.mem_cons_of_mem _ (h2 j hj').1, (h2 j hj').2⟩
            · simp only [List.mem_singleton] at hj'
              subst hj'
              exact ⟨List.mem_cons_self _ _, hdisk⟩
    · rw [if_neg he]
      exact ih i st h1 h2

/-- C2: over any admission run, no two admitted jobs share an output
path; every admitted job's output path was recorded in the claimed set
and was free on disk when chosen; and whenever the numeric-suffix
search settles on counter `k`, the probe `name_k.ext` is free both on
disk and in the claimed set while every earlier probe `name_i.ext`,
`i < k`, collided with the disk or the claimed set. -/
theorem admission_outputs_unique (exts : List String) (newExt : String)
    (onDisk : Path → Bool) (fuel : Nat) (cancelObs : Nat → Bool)
    (entries : List Entry) :
    (((admissionRun exts newExt onDisk fuel cancelObs entries 0 ⟨[], []⟩).queue.map
        Job.output).Nodup ∧
     ∀ j ∈ (admissionRun exts newExt onDisk fuel cancelObs entries 0 ⟨[], []⟩).queue,
       j.output ∈ (admissionRun exts newExt onDisk fuel cancelObs entries 0 ⟨[], []⟩).claimed ∧
       onDisk j.output = false) ∧
    (∀ (claimed : List Path) (stem : String) (k : Nat),
      findSuffix (fun p => !onDisk p && !claimed.contains p) stem newExt fuel 0 = some k →
      (onDisk (probeName stem newExt k) = false ∧
        probeName stem newExt k ∉ claimed) ∧
      ∀ i < k, onDisk (probeName stem newExt i) = true ∨
        probeName stem newExt i ∈ claimed) := by
  constructor
  · exact admissionRun_inv exts newExt onDisk fuel cancelObs entries 0 ⟨[], []⟩
      (by simp) (by simp)
  · intro claimed stem k hk
    obtain ⟨hfree, -, hmin⟩ := findSuffix_some _ stem newExt fuel 0 k hk
    constructor
    · simp only [Bool.and_eq_true, Bool.not_eq_true'] at hfree
      refine ⟨hfree.1, fun hmem => ?_⟩
      have h2 := hfree.2
      simp at h2
      exact h2 hmem
    · intro i hi
      have hni := hmin i (Nat.zero_le _) hi
      by_cases ha : onDisk (probeName stem newExt i) = true
      · exact Or.inl ha
      · right
        have ha' : onDisk (probeName stem newExt i) = false := Bool.eq_false_iff.mpr ha
        simp [ha'] at hni
        exact hni

/-- C2 witness: two inputs `a.png`, `b.png` with `a.webp` already on
disk admit distinct outputs, each claimed and absent from disk. -/
theorem admission_outputs_unique_witness :
    (((admissionRun ["png"] "webp" (fun p => p == "a.webp") 3 (fun _ => false)
        [⟨"a", some "png"⟩, ⟨"b", some "png"⟩] 0 ⟨[], []⟩).queue.map
        Job.output).Nodup) ∧
    (∀ j ∈ (admissionRun ["png"] "webp" (fun p => p == "a.webp") 3 (fun _ => false)
        [⟨"a", some "png"⟩, ⟨"b", some "png"⟩] 0 ⟨[], []⟩).queue,
      j.output ∈ (admissionRun ["png"] "webp" (fun p => p == "a.webp") 3 (fun _ => false)
        [⟨"a", some "png"⟩, ⟨"b", some "png"⟩] 0 ⟨[], []⟩).claimed ∧
      (fun p => p == "a.webp") j.output = false) :=
  (admission_outputs_unique ["png"] "webp" (fun p => p == "a.webp") 3 (fun _ => false)
    [⟨"a", some "png"⟩, ⟨"b", some "png"⟩]).1

/-- Length bound: the queue grows by at most one per eligible entry seen
before the cancellation flag reads true, and the flag is read before
each enqueue. -/
theorem admissionRun_length_le (exts : List String) (newExt : String)
    (onDisk : Path → Bool) (fuel : Nat) (cancelObs : Nat → Bool) (k : Nat)
    (hc : ∀ n, cancelObs n = decide (k ≤ n)) :
    ∀ (entries : List Entry) (i : Nat) (st : AdmissionState),
      (admissionRun exts newExt onDisk fuel cancelObs entries i st).queue.length ≤
        st.queue.length + (k - i) := by
  intro entries
  induction entries with
  | nil => intro i st; rw [admissionRun]; omega
  | cons e rest ih =>
    intro i st
    rw [admissionRun]
    by_cases he : extMatches exts e.ext = true
    · rw [if_pos he]
      by_cases hki : k ≤ i
      · rw [if_pos (by rw [hc]; exact decide_eq_true hki)]
        omega
      · rw [if_neg (by rw [hc]; simp; omega)]
        cases hd : deriveOutput onDisk st.claimed e.stem newExt fuel with
        | none => exact Nat.le_add_right _ _
        | some out =>
          have hih := ih (i + 1)
            { claimed := out :: st.claimed,
              queue := st.queue ++ [{ input := entryPath e, output := out }] }
          simp only [List.length_append, List.length_cons, List.length_nil] at hih
          show (admissionRun exts newExt onDisk fuel cancelObs rest (i + 1)
            { claimed := out :: st.claimed,
              queue := st.queue ++ [{ input := entryPath e, output := out }] }).queue.length ≤
            st.queue.length + (k - i)
          omega
    · rw [if_neg he]
      exact ih i st

/-- C5: when the cancellation flag becomes (and stays) set from the
`k`-th eligible-file check onward, the run admits at most `k` jobs; and
once an eligible entry's flag check reads true, the loop breaks — the
admission state never changes again, so no further job is enqueued. -/
theorem admission_stops_on_cancel (exts : List String) (newExt : String)
    (onDisk : Path → Bool) (fuel : Nat) (cancelObs : Nat → Bool) (k : Nat)
    (entries : List Entry)
    (hc : ∀ n, cancelObs n = decide (k ≤ n)) :
    (admissionRun exts newExt onDisk fuel cancelObs entries 0 ⟨[], []⟩).queue.length ≤ k ∧
    ∀ (e : Entry) (rest : List Entry) (i : Nat) (st : AdmissionState),
      extMatches exts e.ext = true → k ≤ i →
      admissionRun exts newExt onDisk fuel cancelObs (e :: rest) i st = st := by
  constructor
  · have := admissionRun_length_le exts newExt onDisk fuel cancelObs k hc entries 0 ⟨[], []⟩
    simpa using this
  · intro e rest i st he hki
    rw [admissionRun, if_pos he, if_pos (by rw [hc]; exact decide_eq_true hki)]

/-- C5 witness: ten eligible `png` files with cancellation observed from
the third eligible check onward admit at most two jobs. -/
theorem admission_stops_on_cancel_witness :
    (admissionRun ["png"] "webp" (fun _ => false) 1 (fun n => decide (2 ≤ n))
      [⟨"f0", some "png"⟩, ⟨"f1", some "png"⟩, ⟨"f2", some "png"⟩,
       ⟨"f3", some "png"⟩, ⟨"f4", some "png"⟩, ⟨"f5", some "png"⟩,
       ⟨"f6", some "png"⟩, ⟨"f7", some "png"⟩, ⟨"f8", some "png"⟩,
       ⟨"f9", some "png"⟩] 0 ⟨[], []⟩).queue.length ≤ 2 :=
  (admission_stops_on_cancel ["png"] "webp" (fun _ => false) 1
    (fun n => decide (2 ≤ n)) 2
    [⟨"f0", some "png"⟩, ⟨"f1", some "png"⟩, ⟨"f2", some "png"⟩,
     ⟨"f3", some "png"⟩, ⟨"f4", some "png"⟩, ⟨"f5", some "png"⟩,
     ⟨"f6", some "png"⟩, ⟨"f7", some "png"⟩, ⟨"f8", some "png"⟩,
     ⟨"f9", some "png"⟩] (fun _ => rfl)).1

/-- C4 counterexample: with `ffpack.txt` already on disk, the selected
log path is `ffpack.txt` itself — still a colliding path, not a fresh
one as the claim states. -/
theorem logSetupPath_counterexample :
    logSetupPath (fun p => p == "ffpack.txt") "ffpack.txt" = "ffpack.txt" ∧
    (fun p => p == "ffpack.txt")
      (logSetupPath (fun p => p == "ffpack.txt") "ffpack.txt") = true := by
  exact ⟨rfl, by decide⟩

/-- C4 amended: the user-specified log path is used exactly as given —
no numeric suffix is ever appended (the disambiguation block is
commented out and the filesystem is never consulted) — and the file is
opened write+create without truncation, so a pre-existing log file is
written into with its content initially intact. -/
theorem logSetupPath_no_disambiguation (onDisk : Path → Bool) (requested : Path)
    (c : List Nat) :
    logSetupPath onDisk requested = requested ∧
    openedContent logOpenMode (some c) = some c := by
  exact ⟨rfl, by simp [openedContent, logOpenMode]⟩

/-- C8: `format_bytes` selects GiB exactly when the count is at least
`1024 ^ 3`, MiB exactly when it is at least `1024 ^ 2` but below
`1024 ^ 3`, KiB exactly when it is at least `1024` but below
`1024 ^ 2`, and plain bytes below `1024`; the format string carries two
decimal places for every unit above bytes and none for plain bytes. -/
theorem formatBytesUnit_thresholds (b : Nat) :
    ((formatBytesUnit b).1 = .GiB ↔ 1024 ^ 3 ≤ b) ∧
    ((formatBytesUnit b).1 = .MiB ↔ 1024 ^ 2 ≤ b ∧ b < 1024 ^ 3) ∧
    ((formatBytesUnit b).1 = .KiB ↔ 1024 ≤ b ∧ b < 1024 ^ 2) ∧
    ((formatBytesUnit b).1 = .B ↔ b < 1024) ∧
    ((formatBytesUnit b).2 = if (formatBytesUnit b).1 = .B then 0 else 2) := by
  unfold formatBytesUnit
  split_ifs with h1 h2 h3 <;> simp_all [KB, MB, GB] <;> omega

/-- C9: the printed byte-savings difference is the unchecked u64
subtraction `totalInputBytes - totalOutputBytes`: when the output total
is at most the input total it equals the true difference (and checked
subtraction agrees), but when the output total exceeds the input total
the checked subtraction panics while the unchecked one wraps modulo
`2 ^ 64` to `totalIn + 2 ^ 64 - totalOut`, which is not the (negative)
mathematical difference — so the printed value is well-defined only
under `totalOutputBytes ≤ totalInputBytes`. -/
theorem reportDiff_underflow (a b : Nat) (ha : a < 2 ^ 64) (hb : b < 2 ^ 64) :
    (b ≤ a → reportDiff a b = a - b ∧ u64SubChecked a b = some (a - b)) ∧
    (a < b → u64SubChecked a b = none ∧
      reportDiff a b = a + 2 ^ 64 - b ∧
      (reportDiff a b : Int) = (a : Int) - (b : Int) + 2 ^ 64 ∧
      (a : Int) - (b : Int) < 0) := by
  constructor
  · intro hle
    constructor
    · simp only [reportDiff, u64SubWrapping, u64Mod]
      have h1 : a + (2 ^ 64 - b) = (a - b) + 2 ^ 64 := by omega
      rw [h1, Nat.add_mod_right, Nat.mod_eq_of_lt (by omega)]
    · rw [u64SubChecked, if_pos hle]
  · intro hlt
    have hval : reportDiff a b = a + 2 ^ 64 - b := by
      simp only [reportDiff, u64SubWrapping, u64Mod]
      rw [Nat.mod_eq_of_lt (by omega)]
      omega
    refine ⟨by rw [u64SubChecked, if_neg (by omega)], hval, by omega, by omega⟩

/-- C9 witness: input total 100, output total 300 — the checked
subtraction panics and the wrapping value is `100 + 2 ^ 64 - 300`. -/
theorem reportDiff_underflow_witness :
    u64SubChecked 100 300 = none ∧ reportDiff 100 300 = 100 + 2 ^ 64 - 300 :=
  ⟨((reportDiff_underflow 100 300 (by norm_num) (by norm_num)).2 (by norm_num)).1,
   ((reportDiff_underflow 100 300 (by norm_num) (by norm_num)).2 (by norm_num)).2.1⟩

end FFPack
